import Mathlib

/-!
Shallow embedding of the core of the `langgraph-agent-builder` repository
(`src/core/state.py`, `src/core/nodes.py`, `src/config/models.py`,
`src/builders/agent_builder.py`) together with proofs of the behavioural
properties stated in the specification.

Python dictionaries are modelled as insertion-ordered association lists
over string keys; Python runtime values are modelled by the inductive
type `Val`, which covers the value shapes the embedded code manipulates
(None, booleans, integers, strings, message lists and nested dicts).
Raising code is modelled with `Except`.
-/

namespace LGAB

/-- Python runtime values, restricted to the shapes the embedded code
manipulates.  A chat message is modelled as a `(role, content)` pair. -/
inductive Val where
  | none
  | bool (b : Bool)
  | int (n : Int)
  | str (s : String)
  | msgList (ms : List (String × Val))
  | dict (d : List (String × Val))

/-- A Python `dict` with string keys: an insertion-ordered association
list whose keys are unique in any dict actually built by the code. -/
abbrev PyDict := List (String × Val)

/-- `d[k]` / `d.get(k)`: the value stored under `k`, if present. -/
def dictGet (d : PyDict) (k : String) : Option Val :=
  match d with
  | [] => Option.none
  | (k', v) :: rest => if k' = k then some v else dictGet rest k

/-- `k in d`. -/
def dictContains (d : PyDict) (k : String) : Bool :=
  (dictGet d k).isSome

/-- `d[k] = v`: replaces the value in place if `k` is present (keeping
insertion order, as CPython does), otherwise appends the new entry. -/
def dictSet (d : PyDict) (k : String) (v : Val) : PyDict :=
  match d with
  | [] => [(k, v)]
  | (k', v') :: rest =>
      if k' = k then (k, v) :: rest else (k', v') :: dictSet rest k v

/-- `d.update(u)`: sets each entry of `u` into `d`, in order. -/
def dictUpdate (d : PyDict) (u : PyDict) : PyDict :=
  u.foldl (fun acc p => dictSet acc p.1 p.2) d

/-- `del d[k]`. -/
def dictRemove (d : PyDict) (k : String) : PyDict :=
  match d with
  | [] => []
  | (k', v') :: rest =>
      if k' = k then dictRemove rest k else (k', v') :: dictRemove rest k

/-- The key list of a dict. -/
def dictKeys (d : PyDict) : List String :=
  d.map (fun p => p.1)

/-! ### Basic dictionary lemmas -/

theorem dictGet_set_self (d : PyDict) (k : String) (v : Val) :
    dictGet (dictSet d k v) k = some v := by
  induction d with
  | nil => simp [dictSet, dictGet]
  | cons p rest ih =>
      by_cases h : p.1 = k
      · simp [dictSet, h, dictGet]
      · simp [dictSet, h, dictGet, ih]

theorem dictGet_set_ne (d : PyDict) (k k' : String) (v : Val) (h : k ≠ k') :
    dictGet (dictSet d k v) k' = dictGet d k' := by
  induction d with
  | nil => simp [dictSet, dictGet, h]
  | cons p rest ih =>
      by_cases hp : p.1 = k
      · simp [dictSet, hp, dictGet, h]
      · simp [dictSet, hp, dictGet, ih]

theorem dictGet_set_isSome (d : PyDict) (k k' : String) (v : Val)
    (h : (dictGet d k').isSome) : (dictGet (dictSet d k v) k').isSome := by
  by_cases hk : k = k'
  · subst hk; simp [dictGet_set_self]
  · rwa [dictGet_set_ne d k k' v hk]

theorem dictGet_isSome_iff_mem (d : PyDict) (k : String) :
    (dictGet d k).isSome ↔ k ∈ dictKeys d := by
  induction d with
  | nil => simp [dictGet, dictKeys]
  | cons p rest ih =>
      by_cases h : p.1 = k
      · simp [dictGet, dictKeys, h]
      · simp [dictGet, dictKeys, h, ih]
        intro he
        exact absurd he.symm h

theorem dictKeys_cons (p : String × Val) (rest : PyDict) :
    dictKeys (p :: rest) = p.1 :: dictKeys rest := rfl

theorem mem_dictKeys_set (d : PyDict) (k k' : String) (v : Val)
    (h : k' ∈ dictKeys (dictSet d k v)) : k' = k ∨ k' ∈ dictKeys d := by
  induction d with
  | nil => simpa [dictSet, dictKeys] using h
  | cons p rest ih =>
      by_cases hp : p.1 = k
      · rw [dictSet, if_pos hp, dictKeys_cons] at h
        rcases List.mem_cons.mp h with h | h
        · exact Or.inl h
        · exact Or.inr (by rw [dictKeys_cons]; exact List.mem_cons_of_mem _ h)
      · rw [dictSet, if_neg hp, dictKeys_cons] at h
        rcases List.mem_cons.mp h with h | h
        · exact Or.inr (by rw [dictKeys_cons]; exact h ▸ List.mem_cons_self _ _)
        · rcases ih h with h' | h'
          · exact Or.inl h'
          · exact Or.inr (by rw [dictKeys_cons]; exact List.mem_cons_of_mem _ h')

theorem dictGet_remove_self (d : PyDict) (k : String) :
    dictGet (dictRemove d k) k = Option.none := by
  induction d with
  | nil => rfl
  | cons p rest ih =>
      by_cases h : p.1 = k
      · simp [dictRemove, h, ih]
      · simp [dictRemove, h, dictGet, ih]

theorem dictGet_remove_ne (d : PyDict) (k k' : String) (h : k ≠ k') :
    dictGet (dictRemove d k) k' = dictGet d k' := by
  induction d with
  | nil => rfl
  | cons p rest ih =>
      by_cases hp : p.1 = k
      · rw [dictRemove, if_pos hp, ih, dictGet, if_neg (hp ▸ h)]
      · rw [dictRemove, if_neg hp, dictGet, dictGet]
        by_cases hp' : p.1 = k'
        · rw [if_pos hp', if_pos hp']
        · rw [if_neg hp', if_neg hp', ih]

theorem dictGet_update_not_mem (d u : PyDict) (k : String)
    (h : k ∉ dictKeys u) : dictGet (dictUpdate d u) k = dictGet d k := by
  induction u generalizing d with
  | nil => rfl
  | cons p rest ih =>
      have hk : k ∉ dictKeys rest := by
        intro hmem
        exact h (List.mem_cons_of_mem _ hmem)
      have hne : p.1 ≠ k := by
        intro he
        exact h (by simp [dictKeys, he])
      have : dictUpdate d (p :: rest) = dictUpdate (dictSet d p.1 p.2) rest := rfl
      rw [this, ih _ hk, dictGet_set_ne _ _ _ _ hne]

theorem dictGet_update_isSome (d u : PyDict) (k : String)
    (h : (dictGet d k).isSome) : (dictGet (dictUpdate d u) k).isSome := by
  induction u generalizing d with
  | nil => exact h
  | cons p rest ih =>
      have : dictUpdate d (p :: rest) = dictUpdate (dictSet d p.1 p.2) rest := rfl
      rw [this]
      exact ih _ (dictGet_set_isSome _ _ _ _ h)

/-! ### `src/core/state.py` -/

/-- Fallback `add_messages` (state.py, lines 11-13): `return x + y`. -/
def add_messages (x y : List (String × Val)) : List (String × Val) :=
  x ++ y

/-- `StateManager._get_default_state` (state.py, lines 95-106). -/
def get_default_state : PyDict :=
  [("messages", Val.msgList []),
   ("input", Val.str ""),
   ("output", Val.none),
   ("current_node", Val.none),
   ("error", Val.none),
   ("metadata", Val.dict []),
   ("context", Val.dict []),
   ("iterations", Val.int 0)]

/-- `StateManager.update` (state.py, lines 108-111):
`self.state.update(updates); return self.state`. -/
def state_update (state updates : PyDict) : PyDict :=
  dictUpdate state updates

/-! ### `src/core/nodes.py` -/

/-- Python `str(...)` on the values the embedded code applies it to.
Only the `None`, boolean, integer and string cases are exercised by the
conditional-routing code; container rendering is a placeholder (no
theorem below depends on it). -/
def pyStr : Val → String
  | Val.none => "None"
  | Val.bool true => "True"
  | Val.bool false => "False"
  | Val.int n => toString n
  | Val.str s => s
  | Val.msgList _ => "<list>"
  | Val.dict _ => "<dict>"

/-- `value.startswith("$")` for a string value. -/
def isDollarRef (s : String) : Bool :=
  s.data.head? = some '$'

/-- `value[1:]`. -/
def dropFirstChar (s : String) : String :=
  String.mk s.data.tail

/-- Resolution of one entry of a tool input mapping
(`ToolNodeBuilder._prepare_tool_input`, nodes.py lines 220-226):
a string starting with `$` is replaced by `state.get(value[1:])`
(`None`, i.e. `Val.none`, when the key is absent); any other value
passes through unchanged. -/
def resolveToolValue (state : PyDict) (v : Val) : Val :=
  match v with
  | Val.str s =>
      if isDollarRef s then (dictGet state (dropFirstChar s)).getD Val.none
      else Val.str s
  | v => v

/-- `state.get("messages", [])`, viewed as a message list.  The code
only ever stores message lists under this key. -/
def stateMessages (state : PyDict) : List (String × Val) :=
  match dictGet state "messages" with
  | some (Val.msgList ms) => ms
  | _ => []

/-- `ToolNodeBuilder._prepare_tool_input` (nodes.py, lines 210-233).
`tool_config` is `Option`al; Python truthiness makes both `None` and an
empty mapping take the default branch, which passes the last message
content under the key `"input"` when the history is non-empty and an
empty mapping otherwise. -/
def prepare_tool_input (state : PyDict) (tool_config : Option PyDict) : PyDict :=
  match tool_config with
  | some (p :: tc) =>
      (p :: tc).foldl (fun acc q => dictSet acc q.1 (resolveToolValue state q.2)) []
  | _ =>
      match (stateMessages state).getLast? with
      | some m => [("input", m.2)]
      | Option.none => []

/-- `branches.get(k)` for the branch mapping of a conditional node. -/
def branchesGet (branches : List (String × String)) (k : String) : Option String :=
  match branches with
  | [] => Option.none
  | (k', v) :: rest => if k' = k then some v else branchesGet rest k

/-- The wrapper produced by `ConditionalNodeBuilder._parse_condition`
(nodes.py, lines 281-293): evaluates the raw expression and returns
`False` when the evaluation raises. -/
def condition_func (rawEval : PyDict → Except String Val) (state : PyDict) : Val :=
  match rawEval state with
  | Except.ok v => v
  | Except.error _ => Val.bool false

/-- `conditional_node` (nodes.py, lines 257-279): records the current
node name, evaluates the condition through `condition_func`, and routes
to `branches.get(str(result), branches.get("default", "END"))`.
Returns the updated state together with the routing decision. -/
def conditional_node (name : String) (branches : List (String × String))
    (rawEval : PyDict → Except String Val) (state : PyDict) :
    PyDict × String :=
  let st := dictSet state "current_node" (Val.str name)
  let result := condition_func rawEval st
  let next_node :=
    (branchesGet branches (pyStr result)).getD
      ((branchesGet branches "default").getD "END")
  (st, next_node)

/-- `human_input_node` (nodes.py, lines 302-334).  Records the node
name, computes the prompt (`config.description or "Please provide
input:"`), marks the state as awaiting input and records the prompt;
when a pending answer is present it is appended to the message history
as a human message, the awaiting flag is cleared and the answer key is
deleted. -/
def humanPrompt (description : Option String) : String :=
  match description with
  | some d => if d = "" then "Please provide input:" else d
  | Option.none => "Please provide input:"

def human_input_node (name : String) (description : Option String)
    (state : PyDict) : PyDict :=
  let prompt := humanPrompt description
  let s1 := dictSet state "current_node" (Val.str name)
  let s2 := dictSet s1 "needs_human_input" (Val.bool true)
  let s3 := dictSet s2 "human_input_prompt" (Val.str prompt)
  match dictGet s3 "human_input" with
  | some answer =>
      let msgs := stateMessages s3
      let s4 := dictSet s3 "messages" (Val.msgList (msgs ++ [("human", answer)]))
      let s5 := dictSet s4 "needs_human_input" (Val.bool false)
      dictRemove s5 "human_input"
  | Option.none => s3

/-! ### `src/config/models.py` -/

/-- `NodeType` (models.py, lines 17-23). -/
inductive NodeType where
  | llm
  | tool
  | conditional
  | humanInput
  | custom
deriving DecidableEq

/-- `WorkflowType` (models.py, lines 26-32). -/
inductive WorkflowType where
  | sequential
  | parallel
  | conditional
  | cyclic
  | custom
deriving DecidableEq

/-- A pydantic model field as given to the constructor: either omitted
(the declared default is used and, per pydantic v1 semantics, the
field's validators are skipped) or supplied with a value, which may be
Python `None`. -/
inductive PField (α : Type) where
  | omitted
  | supplied (v : Option α)

/-- The value a `PField` resolves to when no validator rejects it (the
declared default of every optional field in models.py is `None`). -/
def resolveField {α : Type} (f : PField α) : Option α :=
  match f with
  | PField.omitted => Option.none
  | PField.supplied v => v

/-- Python falsiness of an optional string (`not v`): `None` and the
empty string are falsy. -/
def falsyStr : Option String → Bool
  | Option.none => true
  | some s => s = ""

/-- `EdgeConfig` (models.py, lines 85-92). -/
structure EdgeCfg where
  source : String
  target : String
  condition : Option String

/-- Constructor input of `NodeConfig` (models.py, lines 46-82),
restricted to the fields the embedded code reads. -/
structure NodeConfigIn where
  name : String
  type : NodeType
  description : PField String
  prompt : PField String
  tool : PField String
  tool_config : PField PyDict
  condition : PField String
  branches : PField (List (String × String))

/-- A validated `NodeConfig`. -/
structure NodeConfig where
  name : String
  type : NodeType
  description : Option String
  prompt : Option String
  tool : Option String
  tool_config : Option PyDict
  condition : Option String
  branches : Option (List (String × String))

/-- Validator `prompt_required_for_llm` (models.py, lines 69-73): when
the `prompt` field is supplied, an LLM node with a falsy prompt is
rejected; when omitted the validator is skipped and the default `None`
is kept. -/
def prompt_required_for_llm (t : NodeType) (f : PField String) :
    Except String (Option String) :=
  match f with
  | PField.omitted => Except.ok Option.none
  | PField.supplied v =>
      if t = NodeType.llm ∧ falsyStr v = true then
        Except.error "Prompt is required for LLM nodes"
      else Except.ok v

/-- Validator `tool_required_for_tool_node` (models.py, lines 75-79). -/
def tool_required_for_tool_node (t : NodeType) (f : PField String) :
    Except String (Option String) :=
  match f with
  | PField.omitted => Except.ok Option.none
  | PField.supplied v =>
      if t = NodeType.tool ∧ falsyStr v = true then
        Except.error "Tool name is required for tool nodes"
      else Except.ok v

/-- Construction of a `NodeConfig`: runs the field validators (pydantic
collects all failures; the embedding reports the first). -/
def validateNodeConfig (c : NodeConfigIn) : Except String NodeConfig := do
  let prompt ← prompt_required_for_llm c.type c.prompt
  let tool ← tool_required_for_tool_node c.type c.tool
  Except.ok ⟨c.name, c.type, resolveField c.description, prompt, tool,
             resolveField c.tool_config, resolveField c.condition,
             resolveField c.branches⟩

/-- Constructor input of `AgentConfig` (models.py, lines 103-159),
restricted to the workflow-relevant fields. -/
structure AgentConfigIn where
  name : String
  workflow_type : WorkflowType
  nodes : List NodeConfigIn
  edges : PField (List EdgeCfg)
  entry_point : PField String
  max_iterations : Int

/-- A validated `AgentConfig`. -/
structure AgentConfig where
  name : String
  workflow_type : WorkflowType
  nodes : List NodeConfig
  edges : Option (List EdgeCfg)
  entry_point : Option String
  max_iterations : Int

/-- Python truthiness of the `edges` value (`if v and ...`): `None` and
the empty list are falsy. -/
def truthyEdges : Option (List EdgeCfg) → Bool
  | Option.none => false
  | some es => !es.isEmpty

/-- Validator `validate_edges` (models.py, lines 144-148): a supplied,
truthy edge list is rejected for sequential workflows. -/
def validate_edges (wf : WorkflowType) (f : PField (List EdgeCfg)) :
    Except String (Option (List EdgeCfg)) :=
  match f with
  | PField.omitted => Except.ok Option.none
  | PField.supplied v =>
      if truthyEdges v = true ∧ wf = WorkflowType.sequential then
        Except.error "Custom edges are not allowed for sequential workflows"
      else Except.ok v

/-- Validator `validate_entry_point` (models.py, lines 150-156): a
supplied, truthy entry point that is not a declared node name is
rejected.  The source message quotes the name (`f"Entry point '{v}' not
found in nodes"`); the quotes are omitted here. -/
def validate_entry_point (nodes : List NodeConfig) (f : PField String) :
    Except String (Option String) :=
  match f with
  | PField.omitted => Except.ok Option.none
  | PField.supplied v =>
      match v with
      | some e =>
          if e ≠ "" ∧ e ∉ nodes.map NodeConfig.name then
            Except.error ("Entry point " ++ e ++ " not found in nodes")
          else Except.ok (some e)
      | Option.none => Except.ok Option.none

/-- Construction of an `AgentConfig`: validates the node list, then the
`edges` and `entry_point` validators, in field-declaration order. -/
def validateAgentConfig (c : AgentConfigIn) : Except String AgentConfig := do
  let nodes ← c.nodes.mapM validateNodeConfig
  let edges ← validate_edges c.workflow_type c.edges
  let entry ← validate_entry_point nodes c.entry_point
  Except.ok ⟨c.name, c.workflow_type, nodes, edges, entry, c.max_iterations⟩

/-! ### `src/builders/agent_builder.py` -/

/-- The fallback terminal marker (`END = "__end__"`, agent_builder.py
line 42). -/
def END : String := "__end__"

/-- `AgentBuilder._add_sequential_edges` (agent_builder.py, lines
297-305): chains consecutive nodes, skipping conditional sources, and
finally routes the last node to `END` when it is not conditional.  The
recursion produces the edges in the same order as the source loop. -/
def add_sequential_edges : List NodeConfig → List (String × String)
  | [] => []
  | [a] => if a.type ≠ NodeType.conditional then [(a.name, END)] else []
  | a :: b :: rest =>
      (if a.type ≠ NodeType.conditional then [(a.name, b.name)] else []) ++
        add_sequential_edges (b :: rest)

/-- `AgentBuilder._add_cyclic_edges` (agent_builder.py, lines 325-338):
uses the explicit edges when the list is truthy, otherwise wires node
`i` to node `(i+1) % N` for every non-conditional node `i`. -/
def add_cyclic_edges (edges : Option (List EdgeCfg))
    (nodes : List NodeConfig) : List (String × String) :=
  match edges with
  | some (e :: es) => (e :: es).map (fun ed => (ed.source, ed.target))
  | _ =>
      (List.range nodes.length).filterMap (fun i =>
        match nodes.get? i, nodes.get? ((i + 1) % nodes.length) with
        | some a, some b =>
            if a.type ≠ NodeType.conditional then some (a.name, b.name)
            else Option.none
        | _, _ => Option.none)

/-- `AgentBuilder._add_custom_edges` (agent_builder.py, lines 340-354):
fails when the edge list is falsy (`None` or empty); otherwise registers
condition-free edges as static edges and condition-carrying edges as
conditional dispatch rules. -/
def add_custom_edges (edges : Option (List EdgeCfg)) :
    Except String (List (String × String) × List EdgeCfg) :=
  match edges with
  | some (e :: es) =>
      let el := e :: es
      Except.ok
        ((el.filter (fun ed => ed.condition.isNone)).map
            (fun ed => (ed.source, ed.target)),
         el.filter (fun ed => ed.condition.isSome))
  | _ => Except.error "Custom workflow requires edges to be specified"

/-- `entry_point = config.entry_point or config.nodes[0].name`
(agent_builder.py, line 292): Python `or` falls through on a falsy
(absent or empty) entry point; `None` models the `IndexError` the
source would raise on an empty node list. -/
def graph_entry_point (entry : Option String) (nodes : List NodeConfig) :
    Option String :=
  match entry with
  | some e => if e = "" then (nodes.map NodeConfig.name).head? else some e
  | Option.none => (nodes.map NodeConfig.name).head?

/-- The first static edge out of `src`, if any (static-edge traversal
resolves the first matching edge). -/
def firstTarget (edges : List (String × String)) (src : String) :
    Option String :=
  match edges with
  | [] => Option.none
  | (s, t) :: rest => if s = src then some t else firstTarget rest src

/-- Static-edge traversal: the sequence of nodes visited from `cur` by
following static edges, with fuel, stopping at the terminal marker or
when no edge leaves the current node. -/
def walk (edges : List (String × String)) : String → Nat → List String
  | cur, 0 => [cur]
  | cur, fuel + 1 =>
      match firstTarget edges cur with
      | some nxt =>
          if nxt = END then cur :: [END] else cur :: walk edges nxt fuel
      | Option.none => [cur]

/-- The outcome of calling a node function on a state: a dict result
(merged into the running state), a non-dict result (stored under
`"output"`), or a raised exception. -/
inductive NodeRes where
  | dict (d : PyDict)
  | other (v : Val)
  | exn (msg : String)

/-- A compiled node callable. -/
abbrev NodeFun := PyDict → NodeRes

/-- `MockLangGraphApp.invoke` (agent_builder.py, lines 111-127): runs
every registered node once, in registration order, merging dict results
into the state and storing other results under `"output"`; a raised
exception records the message under `"error"` and stops the loop.  The
graph edges are never consulted. -/
def mock_invoke : List (String × NodeFun) → PyDict → PyDict
  | [], st => st
  | (_, f) :: rest, st =>
      match f st with
      | NodeRes.dict d => mock_invoke rest (dictUpdate st d)
      | NodeRes.other v => mock_invoke rest (dictSet st "output" v)
      | NodeRes.exn e => dictSet st "error" (Val.str e)

/-- `MockLangGraphApp.invoke` instrumented with the list of executed
node names (same control flow as `mock_invoke`). -/
def mock_invoke_trace : List (String × NodeFun) → PyDict →
    PyDict × List String
  | [], st => (st, [])
  | (n, f) :: rest, st =>
      match f st with
      | NodeRes.dict d =>
          let r := mock_invoke_trace rest (dictUpdate st d)
          (r.1, n :: r.2)
      | NodeRes.other v =>
          let r := mock_invoke_trace rest (dictSet st "output" v)
          (r.1, n :: r.2)
      | NodeRes.exn e => (dictSet st "error" (Val.str e), [n])

/-- Caller input to `LangGraphAgent.invoke`: a raw string or a dict. -/
inductive InputData where
  | str (s : String)
  | dict (d : PyDict)

/-- `LangGraphAgent._prepare_initial_state` (agent_builder.py, lines
509-522): starts from the default state; string input becomes both the
`"input"` key and a single user message; dict input is merged, and when
it carries `"input"` but no `"messages"` a single user message is
synthesized from it. -/
def prepare_initial_state (input_data : InputData) : PyDict :=
  let state := get_default_state
  match input_data with
  | InputData.str s =>
      dictSet (dictSet state "input" (Val.str s)) "messages"
        (Val.msgList [("user", Val.str s)])
  | InputData.dict d =>
      let st := dictUpdate state d
      match dictGet d "input", dictContains d "messages" with
      | some v, false => dictSet st "messages" (Val.msgList [("user", v)])
      | _, _ => st

/-- `LangGraphAgent._process_result` (agent_builder.py, lines 540-557):
projects the final state onto `output`, `messages`, `metadata` and
`error` (with defaults), adding `tools_output` and `intermediate_steps`
only when present. -/
def process_result (result : PyDict) : PyDict :=
  let processed : PyDict :=
    [("output", (dictGet result "output").getD Val.none),
     ("messages", (dictGet result "messages").getD (Val.msgList [])),
     ("metadata", (dictGet result "metadata").getD (Val.dict [])),
     ("error", (dictGet result "error").getD Val.none)]
  let processed :=
    match dictGet result "tools_output" with
    | some v => dictSet processed "tools_output" v
    | Option.none => processed
  match dictGet result "intermediate_steps" with
  | some v => dictSet processed "intermediate_steps" v
  | Option.none => processed

/-- `LangGraphAgent.invoke` (agent_builder.py, lines 447-494), over the
fallback app: prepares the initial state, runs the app, and returns the
processed result. -/
def agent_invoke (nodes : List (String × NodeFun)) (input_data : InputData) :
    PyDict :=
  process_result (mock_invoke nodes (prepare_initial_state input_data))

/-! ## Claim C1: message history under merges -/

/-- Claim C1, counterexample: `StateManager.update` applies plain
`dict.update`, so an update that assigns the `messages` key replaces
the message history wholesale.  At the explicit state
`{messages: [("user", "hi")]}` and update `{messages: []}` the merged
message list is empty, violating
`len(merge(s, u).messages) >= len(s.messages)`. -/
theorem C1_update_replaces_messages :
    dictGet
        (state_update [("messages", Val.msgList [("user", Val.str "hi")])]
          [("messages", Val.msgList [])]) "messages" =
      some (Val.msgList []) ∧
    (stateMessages
        (state_update [("messages", Val.msgList [("user", Val.str "hi")])]
          [("messages", Val.msgList [])])).length <
      (stateMessages [("messages", Val.msgList [("user", Val.str "hi")])]).length :=
  ⟨rfl, by decide⟩

/-- Claim C1 (amended): the `add_messages` merge function only appends
(the first argument is always a prefix of the merge, so the merged
length is at least the original length), while `StateManager.update`
follows last-write-wins for every key including `messages`: it
preserves the message history exactly when the update does not assign
the `messages` key. -/
theorem C1_message_history_merge :
    (∀ x y : List (String × Val),
        List.IsPrefix x (add_messages x y) ∧
        x.length ≤ (add_messages x y).length) ∧
    (∀ s u : PyDict, "messages" ∉ dictKeys u →
        dictGet (state_update s u) "messages" = dictGet s "messages") := by
  constructor
  · intro x y
    refine ⟨⟨y, rfl⟩, ?_⟩
    simp [add_messages]
  · intro s u h
    exact dictGet_update_not_mem s u "messages" h

/-- Witness for C1: both parts applied at explicit inputs. -/
theorem C1_message_history_merge_witness :
    (List.IsPrefix [("user", Val.str "hi")]
        (add_messages [("user", Val.str "hi")] [("ai", Val.str "ok")]) ∧
      ([("user", Val.str "hi")] : List (String × Val)).length ≤
        (add_messages [("user", Val.str "hi")] [("ai", Val.str "ok")]).length) ∧
    dictGet
        (state_update [("messages", Val.msgList [("user", Val.str "hi")])]
          [("output", Val.str "done")]) "messages" =
      dictGet [("messages", Val.msgList [("user", Val.str "hi")])] "messages" :=
  ⟨C1_message_history_merge.1 _ _,
   C1_message_history_merge.2 _ _ (by decide)⟩

/-! ## Claim C9: merges never drop keys -/

/-- Claim C9: merging an update into a state never drops existing keys
(the key set of the merged state is a superset of the original key
set), and keys not assigned by the update — in particular keys unknown
to the declared schema — are preserved unchanged. -/
theorem C9_merge_preserves_keys :
    (∀ (s u : PyDict) (k : String), k ∈ dictKeys s →
        k ∈ dictKeys (state_update s u)) ∧
    (∀ (s u : PyDict) (k : String), k ∉ dictKeys u →
        dictGet (state_update s u) k = dictGet s k) := by
  constructor
  · intro s u k h
    have hs : (dictGet s k).isSome := (dictGet_isSome_iff_mem s k).mpr h
    exact (dictGet_isSome_iff_mem _ k).mp (dictGet_update_isSome s u k hs)
  · intro s u k h
    exact dictGet_update_not_mem s u k h

/-- Witness for C9: a state with a schema-unknown key `custom_field`
merged with an update touching other keys keeps both its keys and the
unknown key's value. -/
theorem C9_merge_preserves_keys_witness :
    "custom_field" ∈
      dictKeys (state_update
        [("custom_field", Val.str "kept"), ("iterations", Val.int 0)]
        [("iterations", Val.int 1), ("output", Val.str "o")]) ∧
    dictGet (state_update
        [("custom_field", Val.str "kept"), ("iterations", Val.int 0)]
        [("iterations", Val.int 1), ("output", Val.str "o")]) "custom_field" =
      dictGet [("custom_field", Val.str "kept"), ("iterations", Val.int 0)]
        "custom_field" :=
  ⟨C9_merge_preserves_keys.1 _ _ _ (by decide),
   C9_merge_preserves_keys.2 _ _ _ (by decide)⟩

/-! ## Claims C5 and C10: tool input preparation -/

theorem foldl_toolset_get_not_mem (state : PyDict) (tc : PyDict)
    (acc : PyDict) (k : String) (h : k ∉ dictKeys tc) :
    dictGet
        (tc.foldl (fun a q => dictSet a q.1 (resolveToolValue state q.2)) acc)
        k =
      dictGet acc k := by
  induction tc generalizing acc with
  | nil => rfl
  | cons p rest ih =>
      have hk : k ∉ dictKeys rest := fun hm => h (List.mem_cons_of_mem _ hm)
      have hne : p.1 ≠ k := fun he => h (by rw [dictKeys_cons, he]; exact List.mem_cons_self _ _)
      rw [List.foldl_cons, ih _ hk, dictGet_set_ne _ _ _ _ hne]

theorem foldl_toolset_get_mem (state : PyDict) (tc : PyDict) (acc : PyDict)
    (k : String) (v : Val) (hnd : (dictKeys tc).Nodup)
    (h : dictGet tc k = some v) :
    dictGet
        (tc.foldl (fun a q => dictSet a q.1 (resolveToolValue state q.2)) acc)
        k =
      some (resolveToolValue state v) := by
  induction tc generalizing acc with
  | nil => cases h
  | cons p rest ih =>
      rw [dictKeys_cons, List.nodup_cons] at hnd
      by_cases hp : p.1 = k
      · rw [dictGet, if_pos hp] at h
        cases h
        rw [List.foldl_cons,
          foldl_toolset_get_not_mem state rest _ k (hp ▸ hnd.1), hp,
          dictGet_set_self]
      · rw [dictGet, if_neg hp] at h
        rw [List.foldl_cons]
        exact ih _ hnd.2 h

/-- Claim C5: for a tool node with a non-empty input mapping, every
mapping entry whose value is a string starting with `$` resolves to the
exact value stored in the state under the referenced key (`value[1:]`),
or to `None` when that key is absent — the resolution is a total
function and never fails — while every other entry (a non-`$` string
or any non-string value) passes through unchanged. -/
theorem C5_tool_input_resolution :
    ∀ (state tc : PyDict) (k : String) (v : Val),
      (dictKeys tc).Nodup → dictGet tc k = some v →
      dictGet (prepare_tool_input state (some tc)) k =
          some (resolveToolValue state v) ∧
      (∀ s : String, v = Val.str s → isDollarRef s = true →
        resolveToolValue state v =
          (dictGet state (dropFirstChar s)).getD Val.none) ∧
      (∀ s : String, v = Val.str s → isDollarRef s = true →
        dictGet state (dropFirstChar s) = Option.none →
        resolveToolValue state v = Val.none) ∧
      (∀ s : String, v = Val.str s → isDollarRef s = false →
        resolveToolValue state v = v) ∧
      ((∀ s : String, v ≠ Val.str s) → resolveToolValue state v = v) := by
  intro state tc k v hnd h
  refine ⟨?_, ?_, ?_, ?_, ?_⟩
  · cases tc with
    | nil => cases h
    | cons p rest =>
        rw [prepare_tool_input]
        exact foldl_toolset_get_mem state (p :: rest) [] k v hnd h
  · intro s hv hd
    subst hv
    rw [resolveToolValue, if_pos hd]
  · intro s hv hd habs
    subst hv
    rw [resolveToolValue, if_pos hd, habs]
    rfl
  · intro s hv hd
    subst hv
    rw [resolveToolValue, if_neg (by simp [hd])]
  · intro hns
    cases v with
    | str s => exact absurd rfl (hns s)
    | none => rfl
    | bool b => rfl
    | int n => rfl
    | msgList ms => rfl
    | dict d => rfl

/-- Witness for C5: a mapping with a `$`-reference to a present key, a
`$`-reference to an absent key, and a literal, resolved against an
explicit state. -/
theorem C5_tool_input_resolution_witness :
    dictGet
        (prepare_tool_input [("query", Val.str "capital of France")]
          (some [("q", Val.str "$query"), ("missing", Val.str "$absent"),
                 ("lit", Val.int 7)])) "q" =
      some (resolveToolValue [("query", Val.str "capital of France")]
        (Val.str "$query")) ∧
    resolveToolValue [("query", Val.str "capital of France")]
        (Val.str "$query") = Val.str "capital of France" ∧
    dictGet
        (prepare_tool_input [("query", Val.str "capital of France")]
          (some [("q", Val.str "$query"), ("missing", Val.str "$absent"),
                 ("lit", Val.int 7)])) "missing" =
      some Val.none ∧
    dictGet
        (prepare_tool_input [("query", Val.str "capital of France")]
          (some [("q", Val.str "$query"), ("missing", Val.str "$absent"),
                 ("lit", Val.int 7)])) "lit" =
      some (Val.int 7) :=
  ⟨(C5_tool_input_resolution [("query", Val.str "capital of France")]
      [("q", Val.str "$query"), ("missing", Val.str "$absent"),
       ("lit", Val.int 7)] "q" (Val.str "$query") (by decide) rfl).1, rfl,
   by
    have := (C5_tool_input_resolution
      [("query", Val.str "capital of France")]
      [("q", Val.str "$query"), ("missing", Val.str "$absent"),
       ("lit", Val.int 7)] "missing" (Val.str "$absent")
      (by decide) rfl).1
    rw [this]
    rfl,
   by
    have := (C5_tool_input_resolution
      [("query", Val.str "capital of France")]
      [("q", Val.str "$query"), ("missing", Val.str "$absent"),
       ("lit", Val.int 7)] "lit" (Val.int 7) (by decide) rfl).1
    rw [this]
    rfl⟩

/-- Claim C10: a tool node whose `tool_config` is absent or empty
passes `{"input": content of the last message}` to the tool when the
message history is non-empty, and the empty mapping when the history is
empty (behaviour of the default branch of `_prepare_tool_input`, not
stated in the spec). -/
theorem C10_tool_input_default :
    ∀ (state : PyDict) (tcOpt : Option PyDict),
      tcOpt = Option.none ∨ tcOpt = some [] →
      (∀ m : String × Val, (stateMessages state).getLast? = some m →
        prepare_tool_input state tcOpt = [("input", m.2)]) ∧
      (stateMessages state = [] → prepare_tool_input state tcOpt = []) := by
  intro state tcOpt h
  have hdef : prepare_tool_input state tcOpt =
      match (stateMessages state).getLast? with
      | some m => [("input", m.2)]
      | Option.none => [] := by
    rcases h with h | h <;> rw [h] <;> rfl
  constructor
  · intro m hm
    rw [hdef, hm]
  · intro hnil
    rw [hdef, hnil]
    rfl

/-- Witness for C10: both the absent-config/non-empty-history case and
the empty-config/empty-history case at explicit inputs. -/
theorem C10_tool_input_default_witness :
    prepare_tool_input
        [("messages", Val.msgList [("user", Val.str "hi"),
                                   ("ai", Val.str "hello")])]
        Option.none =
      [("input", Val.str "hello")] ∧
    prepare_tool_input [("messages", Val.msgList [])] (some []) = [] :=
  ⟨(C10_tool_input_default _ _ (Or.inl rfl)).1 ("ai", Val.str "hello") rfl,
   (C10_tool_input_default _ _ (Or.inr rfl)).2 rfl⟩

/-! ## Claim C4: conditional routing -/

/-- Claim C4, counterexample: an evaluator error is swallowed into the
result `False`, whose string form `"False"` is looked up in the branch
mapping *before* the `"default"` fallback.  With branches
`{"False": "use_calculator", "default": "search_web"}` an evaluation
error therefore routes to `"use_calculator"`, not to the `"default"`
branch `"search_web"` as the claim states. -/
theorem C4_error_not_routed_to_default :
    (conditional_node "router"
        [("False", "use_calculator"), ("default", "search_web")]
        (fun _ => Except.error "evaluation failure") []).2 =
      "use_calculator" ∧
    (conditional_node "router"
        [("False", "use_calculator"), ("default", "search_web")]
        (fun _ => Except.error "evaluation failure") []).2 ≠
      "search_web" :=
  ⟨rfl, by decide⟩

/-- Claim C4 (amended): a conditional node routes to the branch keyed
by `str(result)`, falling back to the `"default"` branch and then to
the terminal marker `"END"`; an evaluator error never surfaces to the
caller — it is treated as the evaluation result `False`, so the node
routes exactly as if the evaluator had returned `False` (to the
`"False"` branch when one exists, else `"default"`, else `"END"`). -/
theorem C4_conditional_routing :
    (∀ (name : String) (branches : List (String × String)) (st : PyDict)
        (v : Val) (t : String),
      branchesGet branches (pyStr v) = some t →
      (conditional_node name branches (fun _ => Except.ok v) st).2 = t) ∧
    (∀ (name : String) (branches : List (String × String)) (st : PyDict)
        (v : Val) (t : String),
      branchesGet branches (pyStr v) = Option.none →
      branchesGet branches "default" = some t →
      (conditional_node name branches (fun _ => Except.ok v) st).2 = t) ∧
    (∀ (name : String) (branches : List (String × String)) (st : PyDict)
        (v : Val),
      branchesGet branches (pyStr v) = Option.none →
      branchesGet branches "default" = Option.none →
      (conditional_node name branches (fun _ => Except.ok v) st).2 = "END") ∧
    (∀ (name : String) (branches : List (String × String)) (st : PyDict)
        (msg : String),
      (conditional_node name branches (fun _ => Except.error msg) st).2 =
        (conditional_node name branches
          (fun _ => Except.ok (Val.bool false)) st).2) := by
  refine ⟨?_, ?_, ?_, ?_⟩
  · intro name branches st v t h
    show (branchesGet branches (pyStr v)).getD
        ((branchesGet branches "default").getD "END") = t
    rw [h]
    rfl
  · intro name branches st v t h hd
    show (branchesGet branches (pyStr v)).getD
        ((branchesGet branches "default").getD "END") = t
    rw [h, hd]
    rfl
  · intro name branches st v h hd
    show (branchesGet branches (pyStr v)).getD
        ((branchesGet branches "default").getD "END") = "END"
    rw [h, hd]
    rfl
  · intro name branches st msg
    rfl

/-- Witness for C4: the three lookup layers and the error case at
explicit inputs (the conditional-agent scenario branch mapping). -/
theorem C4_conditional_routing_witness :
    (conditional_node "route" [("calculation", "use_calculator")]
        (fun _ => Except.ok (Val.str "calculation")) []).2 =
      "use_calculator" ∧
    (conditional_node "route"
        [("calculation", "use_calculator"), ("default", "search_web")]
        (fun _ => Except.ok (Val.str "other")) []).2 = "search_web" ∧
    (conditional_node "route" [("calculation", "use_calculator")]
        (fun _ => Except.ok (Val.str "other")) []).2 = "END" ∧
    (conditional_node "route" [("default", "search_web")]
        (fun _ => Except.error "boom") []).2 =
      (conditional_node "route" [("default", "search_web")]
        (fun _ => Except.ok (Val.bool false)) []).2 :=
  ⟨C4_conditional_routing.1 "route" _ [] (Val.str "calculation")
      "use_calculator" rfl,
   C4_conditional_routing.2.1 "route" _ [] (Val.str "other") "search_web"
      rfl rfl,
   C4_conditional_routing.2.2.1 "route" _ [] (Val.str "other") rfl rfl,
   C4_conditional_routing.2.2.2 "route" _ [] "boom"⟩

/-! ## Claim C7: human-input node -/

theorem human_input_node_pending (name : String) (desc : Option String)
    (state : PyDict) (h : dictGet state "human_input" = Option.none) :
    human_input_node name desc state =
      dictSet (dictSet (dictSet state "current_node" (Val.str name))
        "needs_human_input" (Val.bool true)) "human_input_prompt"
        (Val.str (humanPrompt desc)) := by
  have hh : dictGet
      (dictSet (dictSet (dictSet state "current_node" (Val.str name))
        "needs_human_input" (Val.bool true)) "human_input_prompt"
        (Val.str (humanPrompt desc))) "human_input" = Option.none := by
    rw [dictGet_set_ne _ _ _ _ (by decide), dictGet_set_ne _ _ _ _ (by decide),
      dictGet_set_ne _ _ _ _ (by decide), h]
  simp only [human_input_node, hh]

theorem stateMessages_set_ne (state : PyDict) (k : String) (v : Val)
    (h : k ≠ "messages") :
    stateMessages (dictSet state k v) = stateMessages state := by
  rw [stateMessages, stateMessages, dictGet_set_ne _ _ _ _ h]

theorem human_input_node_answered (name : String) (desc : Option String)
    (state : PyDict) (a : Val) (h : dictGet state "human_input" = some a) :
    human_input_node name desc state =
      dictRemove
        (dictSet
          (dictSet
            (dictSet (dictSet (dictSet state "current_node" (Val.str name))
              "needs_human_input" (Val.bool true)) "human_input_prompt"
              (Val.str (humanPrompt desc)))
            "messages" (Val.msgList (stateMessages state ++ [("human", a)])))
          "needs_human_input" (Val.bool false))
        "human_input" := by
  have hh : dictGet
      (dictSet (dictSet (dictSet state "current_node" (Val.str name))
        "needs_human_input" (Val.bool true)) "human_input_prompt"
        (Val.str (humanPrompt desc))) "human_input" = some a := by
    rw [dictGet_set_ne _ _ _ _ (by decide), dictGet_set_ne _ _ _ _ (by decide),
      dictGet_set_ne _ _ _ _ (by decide), h]
  have hm : stateMessages
      (dictSet (dictSet (dictSet state "current_node" (Val.str name))
        "needs_human_input" (Val.bool true)) "human_input_prompt"
        (Val.str (humanPrompt desc))) = stateMessages state := by
    rw [stateMessages_set_ne _ _ _ (by decide),
      stateMessages_set_ne _ _ _ (by decide),
      stateMessages_set_ne _ _ _ (by decide)]
  simp only [human_input_node, hh, hm]

/-- Claim C7: executing a human-input node on a state with no pending
answer marks the state as awaiting input (`needs_human_input == true`)
with the prompt recorded, and never touches the error field (the node
is a total function — no error is raised); on a state carrying a
pending answer it appends the answer to the message history as a human
message, clears the awaiting flag and removes the consumed answer key
from the state. -/
theorem C7_human_input_node :
    ∀ (name : String) (desc : Option String) (state : PyDict),
      (dictGet state "human_input" = Option.none →
        dictGet (human_input_node name desc state) "needs_human_input" =
            some (Val.bool true) ∧
        dictGet (human_input_node name desc state) "human_input_prompt" =
            some (Val.str (humanPrompt desc)) ∧
        dictGet (human_input_node name desc state) "error" =
            dictGet state "error") ∧
      (∀ a : Val, dictGet state "human_input" = some a →
        dictGet (human_input_node name desc state) "needs_human_input" =
            some (Val.bool false) ∧
        dictGet (human_input_node name desc state) "messages" =
            some (Val.msgList (stateMessages state ++ [("human", a)])) ∧
        dictGet (human_input_node name desc state) "human_input" =
            Option.none ∧
        dictGet (human_input_node name desc state) "error" =
            dictGet state "error") := by
  intro name desc state
  constructor
  · intro h
    rw [human_input_node_pending name desc state h]
    refine ⟨?_, ?_, ?_⟩
    · rw [dictGet_set_ne _ _ _ _ (by decide), dictGet_set_self]
    · rw [dictGet_set_self]
    · rw [dictGet_set_ne _ _ _ _ (by decide), dictGet_set_ne _ _ _ _ (by decide),
        dictGet_set_ne _ _ _ _ (by decide)]
  · intro a h
    rw [human_input_node_answered name desc state a h]
    refine ⟨?_, ?_, ?_, ?_⟩
    · rw [dictGet_remove_ne _ _ _ (by decide), dictGet_set_self]
    · rw [dictGet_remove_ne _ _ _ (by decide),
        dictGet_set_ne _ _ _ _ (by decide), dictGet_set_self]
    · rw [dictGet_remove_self]
    · rw [dictGet_remove_ne _ _ _ (by decide),
        dictGet_set_ne _ _ _ _ (by decide), dictGet_set_ne _ _ _ _ (by decide),
        dictGet_set_ne _ _ _ _ (by decide), dictGet_set_ne _ _ _ _ (by decide),
        dictGet_set_ne _ _ _ _ (by decide)]

/-- Witness for C7: the no-answer case and the pending-answer case at
explicit states. -/
theorem C7_human_input_node_witness :
    (dictGet (human_input_node "ask" (some "Your name?") get_default_state)
        "needs_human_input" = some (Val.bool true) ∧
      dictGet (human_input_node "ask" (some "Your name?") get_default_state)
        "human_input_prompt" = some (Val.str (humanPrompt (some "Your name?"))) ∧
      dictGet (human_input_node "ask" (some "Your name?") get_default_state)
        "error" = dictGet get_default_state "error") ∧
    (dictGet
        (human_input_node "ask" Option.none
          [("messages", Val.msgList [("user", Val.str "hi")]),
           ("human_input", Val.str "Alice")]) "needs_human_input" =
        some (Val.bool false) ∧
      dictGet
        (human_input_node "ask" Option.none
          [("messages", Val.msgList [("user", Val.str "hi")]),
           ("human_input", Val.str "Alice")]) "messages" =
        some (Val.msgList
          (stateMessages [("messages", Val.msgList [("user", Val.str "hi")]),
             ("human_input", Val.str "Alice")] ++
            [("human", Val.str "Alice")])) ∧
      dictGet
        (human_input_node "ask" Option.none
          [("messages", Val.msgList [("user", Val.str "hi")]),
           ("human_input", Val.str "Alice")]) "human_input" = Option.none ∧
      dictGet
        (human_input_node "ask" Option.none
          [("messages", Val.msgList [("user", Val.str "hi")]),
           ("human_input", Val.str "Alice")]) "error" =
        dictGet [("messages", Val.msgList [("user", Val.str "hi")]),
           ("human_input", Val.str "Alice")] "error") :=
  ⟨(C7_human_input_node "ask" (some "Your name?") get_default_state).1 rfl,
   (C7_human_input_node "ask" Option.none
      [("messages", Val.msgList [("user", Val.str "hi")]),
       ("human_input", Val.str "Alice")]).2 (Val.str "Alice") rfl⟩

/-! ## Claim C3: sequential topology -/

theorem firstTarget_append (E E2 : List (String × String)) (src : String)
    (h : ∀ e ∈ E, e.1 ≠ src) :
    firstTarget (E ++ E2) src = firstTarget E2 src := by
  induction E with
  | nil => rfl
  | cons e rest ih =>
      obtain ⟨s, t⟩ := e
      rw [List.cons_append, firstTarget,
        if_neg (h (s, t) (List.mem_cons_self _ _))]
      exact ih fun e' he' => h e' (List.mem_cons_of_mem _ he')

theorem add_sequential_edges_mem_consec :
    ∀ (pre : List NodeConfig) (a b : NodeConfig) (post : List NodeConfig),
      a.type ≠ NodeType.conditional →
      (a.name, b.name) ∈ add_sequential_edges (pre ++ a :: b :: post) := by
  intro pre
  induction pre with
  | nil =>
      intro a b post h
      rw [List.nil_append, add_sequential_edges, if_pos h]
      exact List.mem_append.mpr (Or.inl (List.mem_singleton.mpr rfl))
  | cons p pre' ih =>
      intro a b post h
      rw [List.cons_append]
      cases hq : pre' ++ a :: b :: post with
      | nil => exact absurd hq (by simp)
      | cons q rest' =>
          rw [add_sequential_edges]
          refine List.mem_append.mpr (Or.inr ?_)
          rw [← hq]
          exact ih a b post h

theorem add_sequential_edges_mem_last :
    ∀ (pre : List NodeConfig) (a : NodeConfig),
      a.type ≠ NodeType.conditional →
      (a.name, END) ∈ add_sequential_edges (pre ++ [a]) := by
  intro pre
  induction pre with
  | nil =>
      intro a h
      rw [List.nil_append, add_sequential_edges, if_pos h]
      exact List.mem_singleton.mpr rfl
  | cons p pre' ih =>
      intro a h
      rw [List.cons_append]
      cases hq : pre' ++ [a] with
      | nil => exact absurd hq (by simp)
      | cons q rest' =>
          rw [add_sequential_edges]
          refine List.mem_append.mpr (Or.inr ?_)
          rw [← hq]
          exact ih a h

theorem add_sequential_edges_src :
    ∀ (nodes : List NodeConfig) (e : String × String),
      e ∈ add_sequential_edges nodes →
      ∃ n, n ∈ nodes ∧ n.type ≠ NodeType.conditional ∧ n.name = e.1 := by
  intro nodes
  induction nodes with
  | nil => intro e he; cases he
  | cons a rest ih =>
      cases rest with
      | nil =>
          intro e he
          by_cases h : a.type = NodeType.conditional
          · rw [add_sequential_edges, if_neg (by simp [h])] at he
            cases he
          · rw [add_sequential_edges, if_pos h] at he
            rw [List.mem_singleton.mp he]
            exact ⟨a, List.mem_cons_self _ _, h, rfl⟩
      | cons b rest' =>
          intro e he
          rw [add_sequential_edges] at he
          rcases List.mem_append.mp he with he | he
          · by_cases h : a.type = NodeType.conditional
            · rw [if_neg (by simp [h])] at he
              cases he
            · rw [if_pos h] at he
              rw [List.mem_singleton.mp he]
              exact ⟨a, List.mem_cons_self _ _, h, rfl⟩
          · rcases ih e he with ⟨n, hn, ht, hname⟩
            exact ⟨n, List.mem_cons_of_mem _ hn, ht, hname⟩

theorem walk_sequential_chain :
    ∀ (rest : List NodeConfig) (a : NodeConfig) (E : List (String × String)),
      (∀ n ∈ a :: rest, n.type ≠ NodeType.conditional) →
      ((a :: rest).map NodeConfig.name).Nodup →
      (∀ n ∈ a :: rest, n.name ≠ END) →
      (∀ e ∈ E, e.1 ∉ (a :: rest).map NodeConfig.name) →
      walk (E ++ add_sequential_edges (a :: rest)) a.name (a :: rest).length =
        (a :: rest).map NodeConfig.name ++ [END] := by
  intro rest
  induction rest with
  | nil =>
      intro a E hc hnd hne hE
      have ha : a.type ≠ NodeType.conditional := hc a (List.mem_cons_self _ _)
      have hfE : ∀ e ∈ E, e.1 ≠ a.name := by
        intro e me heq
        exact hE e me (by rw [heq]; simp)
      rw [add_sequential_edges, if_pos ha, List.length_cons,
        List.length_nil, walk, firstTarget_append E _ a.name hfE]
      simp [firstTarget]
  | cons b rest' ih =>
      intro a E hc hnd hne hE
      have ha : a.type ≠ NodeType.conditional := hc a (List.mem_cons_self _ _)
      have hfE : ∀ e ∈ E, e.1 ≠ a.name := by
        intro e me heq
        exact hE e me (by rw [heq]; simp)
      have hbE : b.name ≠ END :=
        hne b (List.mem_cons_of_mem _ (List.mem_cons_self _ _))
      have hnd' : ((b :: rest').map NodeConfig.name).Nodup :=
        (List.nodup_cons.mp (by simpa using hnd)).2
      have hanotin : a.name ∉ (b :: rest').map NodeConfig.name :=
        (List.nodup_cons.mp (by simpa using hnd)).1
      rw [add_sequential_edges, if_pos ha, List.length_cons, walk]
      have hft : firstTarget
          (E ++ ([(a.name, b.name)] ++ add_sequential_edges (b :: rest')))
          a.name = some b.name := by
        rw [firstTarget_append E _ a.name hfE, List.singleton_append,
          firstTarget, if_pos rfl]
      simp only [hft]
      rw [if_neg hbE]
      have hassoc :
          E ++ ([(a.name, b.name)] ++ add_sequential_edges (b :: rest')) =
          (E ++ [(a.name, b.name)]) ++ add_sequential_edges (b :: rest') :=
        (List.append_assoc _ _ _).symm
      rw [hassoc]
      have hE' : ∀ e ∈ E ++ [(a.name, b.name)],
          e.1 ∉ (b :: rest').map NodeConfig.name := by
        intro e me
        rcases List.mem_append.mp me with me | me
        · intro hmem
          exact hE e me (by rw [List.map_cons]; exact List.mem_cons_of_mem _ hmem)
        · rw [List.mem_singleton.mp me]
          exact hanotin
      have := ih b (E ++ [(a.name, b.name)])
        (fun n hn => hc n (List.mem_cons_of_mem _ hn))
        hnd'
        (fun n hn => hne n (List.mem_cons_of_mem _ hn))
        hE'
      rw [this]
      rfl

/-- Claim C3: for a sequential topology, `_add_sequential_edges` gives
every non-conditional node `i` a static edge to node `i+1`, routes the
last node to the terminal marker `END` when it is not conditional, and
adds no edge whose source is a conditional node (every edge source is a
non-conditional declared node); consequently, for a node list without
conditional nodes (distinct names, none named `END`), the entry point
defaults to the first declared node and static-edge traversal from it
visits the nodes in declared order and then reaches the terminal
marker. -/
theorem C3_sequential_topology :
    (∀ (pre : List NodeConfig) (a b : NodeConfig) (post : List NodeConfig),
        a.type ≠ NodeType.conditional →
        (a.name, b.name) ∈ add_sequential_edges (pre ++ a :: b :: post)) ∧
    (∀ (pre : List NodeConfig) (a : NodeConfig),
        a.type ≠ NodeType.conditional →
        (a.name, END) ∈ add_sequential_edges (pre ++ [a])) ∧
    (∀ (nodes : List NodeConfig) (e : String × String),
        e ∈ add_sequential_edges nodes →
        ∃ n, n ∈ nodes ∧ n.type ≠ NodeType.conditional ∧ n.name = e.1) ∧
    (∀ (a : NodeConfig) (rest : List NodeConfig),
        (∀ n ∈ a :: rest, n.type ≠ NodeType.conditional) →
        ((a :: rest).map NodeConfig.name).Nodup →
        (∀ n ∈ a :: rest, n.name ≠ END) →
        graph_entry_point Option.none (a :: rest) = some a.name ∧
        walk (add_sequential_edges (a :: rest)) a.name (a :: rest).length =
          (a :: rest).map NodeConfig.name ++ [END]) := by
  refine ⟨add_sequential_edges_mem_consec, add_sequential_edges_mem_last,
    add_sequential_edges_src, ?_⟩
  intro a rest hc hnd hne
  refine ⟨rfl, ?_⟩
  have := walk_sequential_chain rest a [] hc hnd hne (by intro e he; cases he)
  rwa [List.nil_append] at this

/-- Witness for C3: the two-LLM-node sequential agent of the spec
scenario (`understand_query` then `generate_response`). -/
theorem C3_sequential_topology_witness :
    ((⟨"understand_query", NodeType.llm, Option.none, some "p1", Option.none,
        Option.none, Option.none, Option.none⟩ : NodeConfig).name,
      (⟨"generate_response", NodeType.llm, Option.none, some "p2", Option.none,
        Option.none, Option.none, Option.none⟩ : NodeConfig).name) ∈
      add_sequential_edges
        ([] ++ ⟨"understand_query", NodeType.llm, Option.none, some "p1",
            Option.none, Option.none, Option.none, Option.none⟩ ::
          ⟨"generate_response", NodeType.llm, Option.none, some "p2",
            Option.none, Option.none, Option.none, Option.none⟩ :: []) ∧
    graph_entry_point Option.none
        (⟨"understand_query", NodeType.llm, Option.none, some "p1",
            Option.none, Option.none, Option.none, Option.none⟩ ::
          [⟨"generate_response", NodeType.llm, Option.none, some "p2",
            Option.none, Option.none, Option.none, Option.none⟩]) =
        some "understand_query" ∧
    walk
        (add_sequential_edges
          (⟨"understand_query", NodeType.llm, Option.none, some "p1",
              Option.none, Option.none, Option.none, Option.none⟩ ::
            [⟨"generate_response", NodeType.llm, Option.none, some "p2",
              Option.none, Option.none, Option.none, Option.none⟩]))
        "understand_query" 2 =
      ["understand_query", "generate_response", END] := by
  refine ⟨C3_sequential_topology.1 [] _ _ [] (by simp), ?_, ?_⟩
  · exact (C3_sequential_topology.2.2.2 _ _
      (by intro n hn; rcases List.mem_cons.mp hn with rfl | hn
          · simp
          · rcases List.mem_cons.mp hn with rfl | hn
            · simp
            · cases hn)
      (by simp)
      (by intro n hn; rcases List.mem_cons.mp hn with rfl | hn
          · simp [END]
          · rcases List.mem_cons.mp hn with rfl | hn
            · simp [END]
            · cases hn)).1
  · exact (C3_sequential_topology.2.2.2 _ _
      (by intro n hn; rcases List.mem_cons.mp hn with rfl | hn
          · simp
          · rcases List.mem_cons.mp hn with rfl | hn
            · simp
            · cases hn)
      (by simp)
      (by intro n hn; rcases List.mem_cons.mp hn with rfl | hn
          · simp [END]
          · rcases List.mem_cons.mp hn with rfl | hn
            · simp [END]
            · cases hn)).2

/-! ## Claim C2: cyclic iteration limit -/

theorem mock_invoke_trace_state (nodes : List (String × NodeFun)) :
    ∀ st : PyDict, (mock_invoke_trace nodes st).1 = mock_invoke nodes st := by
  induction nodes with
  | nil => intro st; rfl
  | cons p rest ih =>
      intro st
      obtain ⟨n, f⟩ := p
      cases hf : f st with
      | dict d =>
          simp only [mock_invoke_trace, mock_invoke, hf]
          exact ih _
      | other v =>
          simp only [mock_invoke_trace, mock_invoke, hf]
          exact ih _
      | exn e =>
          simp only [mock_invoke_trace, mock_invoke, hf]

theorem mock_invoke_trace_length (nodes : List (String × NodeFun)) :
    ∀ st : PyDict, (mock_invoke_trace nodes st).2.length ≤ nodes.length := by
  induction nodes with
  | nil => intro st; exact Nat.le_refl 0
  | cons p rest ih =>
      intro st
      obtain ⟨n, f⟩ := p
      cases hf : f st with
      | dict d =>
          simp only [mock_invoke_trace, hf, List.length_cons]
          exact Nat.succ_le_succ (ih _)
      | other v =>
          simp only [mock_invoke_trace, hf, List.length_cons]
          exact Nat.succ_le_succ (ih _)
      | exn e =>
          simp only [mock_invoke_trace, hf, List.length_cons, List.length_nil]
          exact Nat.succ_le_succ (Nat.zero_le _)

/-- A node whose update increments the state's iteration counter and
never satisfies any exit condition: the body any looping cyclic agent
would run. -/
def loopNode : NodeFun := fun st =>
  NodeRes.dict (dictSet st "iterations"
    (match dictGet st "iterations" with
     | some (Val.int n) => Val.int (n + 1)
     | _ => Val.int 1))

/-- Claim C2 is refuted by the code: for the cyclic one-node agent
(`max_iterations` is 2 in the failing input, though no value of the
field is ever read), `_add_cyclic_edges` produces the self-loop ring,
yet the execution engine (`MockLangGraphApp.invoke`) ignores edges and
runs each registered node exactly once: the node executes once (the
iteration counter ends at 1, not `max_iterations + 1 = 3`), the run
ends without any error — no `IterationLimitExceeded` failure exists
anywhere in the engine — and in general the engine performs at most one
execution per registered node, so a bounded-iteration failure after
`K+1` executions is impossible. -/
theorem C2_iteration_limit_not_enforced :
    add_cyclic_edges Option.none
        [⟨"loop", NodeType.custom, Option.none, Option.none, Option.none,
          Option.none, Option.none, Option.none⟩] = [("loop", "loop")] ∧
    (mock_invoke_trace [("loop", loopNode)] get_default_state).2 = ["loop"] ∧
    dictGet (mock_invoke [("loop", loopNode)] get_default_state)
        "iterations" = some (Val.int 1) ∧
    dictGet (mock_invoke [("loop", loopNode)] get_default_state) "error" =
        some Val.none ∧
    (∀ (nodes : List (String × NodeFun)) (st : PyDict),
      (mock_invoke_trace nodes st).1 = mock_invoke nodes st ∧
      (mock_invoke_trace nodes st).2.length ≤ nodes.length) :=
  ⟨rfl, rfl, rfl, rfl,
   fun nodes st =>
     ⟨mock_invoke_trace_state nodes st, mock_invoke_trace_length nodes st⟩⟩

/-! ## Claim C6: configuration validation -/

theorem except_bind_ok {ε α β : Type} (a : α) (f : α → Except ε β) :
    (Except.ok a : Except ε α) >>= f = f a := rfl

theorem except_bind_error {ε α β : Type} (e : ε) (f : α → Except ε β) :
    (Except.error e : Except ε α) >>= f = Except.error e := rfl

/-- Claim C6, counterexample: an `AgentConfig` with custom topology and
no edges passes construction-time validation (no validator inspects the
edges of a custom workflow); the missing-edges constraint is enforced
only later, at graph-build time, by `_add_custom_edges`.  So validation
does not fail "on construction" in each of the claimed cases. -/
theorem C6_custom_without_edges_accepted :
    validateAgentConfig
        ⟨"custom-agent", WorkflowType.custom,
          [⟨"worker", NodeType.custom, PField.omitted, PField.omitted,
            PField.omitted, PField.omitted, PField.omitted, PField.omitted⟩],
          PField.omitted, PField.omitted, 10⟩ =
      Except.ok
        ⟨"custom-agent", WorkflowType.custom,
          [⟨"worker", NodeType.custom, Option.none, Option.none, Option.none,
            Option.none, Option.none, Option.none⟩],
          Option.none, Option.none, 10⟩ ∧
    add_custom_edges Option.none =
      Except.error "Custom workflow requires edges to be specified" :=
  ⟨rfl, rfl⟩

/-- Claim C6 (amended): construction-time validation raises an error
naming the violated constraint for an LLM node whose supplied prompt is
falsy, a Tool node whose supplied tool name is falsy, a supplied entry
point that is not a declared node name, and supplied non-empty edges
with sequential topology; pydantic skips validators for omitted fields,
so an LLM node whose prompt is simply omitted passes construction.  A
custom topology without edges also passes construction; that constraint
is enforced at graph-build time by `_add_custom_edges`. -/
theorem C6_validation :
    (∀ (c : NodeConfigIn) (v : Option String),
        c.type = NodeType.llm → c.prompt = PField.supplied v →
        falsyStr v = true →
        validateNodeConfig c =
          Except.error "Prompt is required for LLM nodes") ∧
    (∀ (c : NodeConfigIn) (v : Option String),
        c.type = NodeType.tool → c.tool = PField.supplied v →
        falsyStr v = true →
        validateNodeConfig c =
          Except.error "Tool name is required for tool nodes") ∧
    (∀ (c : AgentConfigIn) (ns : List NodeConfig)
        (es : Option (List EdgeCfg)) (e : String),
        c.nodes.mapM validateNodeConfig = Except.ok ns →
        validate_edges c.workflow_type c.edges = Except.ok es →
        c.entry_point = PField.supplied (some e) → e ≠ "" →
        e ∉ ns.map NodeConfig.name →
        validateAgentConfig c =
          Except.error ("Entry point " ++ e ++ " not found in nodes")) ∧
    (∀ (c : AgentConfigIn) (ns : List NodeConfig) (ed : EdgeCfg)
        (eds : List EdgeCfg),
        c.nodes.mapM validateNodeConfig = Except.ok ns →
        c.workflow_type = WorkflowType.sequential →
        c.edges = PField.supplied (some (ed :: eds)) →
        validateAgentConfig c =
          Except.error
            "Custom edges are not allowed for sequential workflows") ∧
    (∀ (c : AgentConfigIn) (ns : List NodeConfig) (en : Option String),
        c.workflow_type = WorkflowType.custom →
        c.edges = PField.omitted →
        c.nodes.mapM validateNodeConfig = Except.ok ns →
        validate_entry_point ns c.entry_point = Except.ok en →
        validateAgentConfig c =
          Except.ok ⟨c.name, WorkflowType.custom, ns, Option.none, en,
            c.max_iterations⟩ ∧
        add_custom_edges Option.none =
          Except.error "Custom workflow requires edges to be specified") ∧
    (∀ c : NodeConfigIn,
        c.type = NodeType.llm → c.prompt = PField.omitted →
        validateNodeConfig c =
          Except.ok ⟨c.name, c.type, resolveField c.description,
            Option.none, resolveField c.tool, resolveField c.tool_config,
            resolveField c.condition, resolveField c.branches⟩) := by
  refine ⟨?_, ?_, ?_, ?_, ?_, ?_⟩
  · intro c v ht hp hf
    rw [validateNodeConfig, hp]
    rw [prompt_required_for_llm]
    rw [if_pos ⟨ht, hf⟩]
    rfl
  · intro c v ht hto hf
    have hp : prompt_required_for_llm c.type c.prompt =
        Except.ok (resolveField c.prompt) := by
      cases hpc : c.prompt with
      | omitted => rfl
      | supplied w =>
          rw [prompt_required_for_llm,
            if_neg (by intro hand; rw [ht] at hand; cases hand.1)]
          rfl
    rw [validateNodeConfig, hp, hto]
    rw [tool_required_for_tool_node]
    rw [if_pos ⟨ht, hf⟩]
    rfl
  · intro c ns es e hns hed hep he hmem
    rw [validateAgentConfig, hns, hed, hep]
    show Except.bind (validate_entry_point ns (PField.supplied (some e))) _ =
      _
    rw [validate_entry_point, if_pos ⟨he, hmem⟩]
    rfl
  · intro c ns ed eds hns hwf hed
    rw [validateAgentConfig, hns, hed, hwf]
    rw [validate_edges]
    rw [if_pos ⟨by rfl, rfl⟩]
    rfl
  · intro c ns en hwf hed hns hen
    constructor
    · rw [validateAgentConfig, hns, hed, hwf]
      simp only [validate_edges, except_bind_ok]
      rw [hen]
      simp only [except_bind_ok]
    · rfl
  · intro c ht hp
    have hto : tool_required_for_tool_node c.type c.tool =
        Except.ok (resolveField c.tool) := by
      cases htc : c.tool with
      | omitted => rfl
      | supplied w =>
          rw [tool_required_for_tool_node,
            if_neg (by intro hand; rw [ht] at hand; cases hand.1)]
          rfl
    rw [validateNodeConfig, hp, hto]
    rfl

/-- An LLM node whose prompt is supplied as `None`. -/
def llmNoPromptIn : NodeConfigIn :=
  ⟨"n", NodeType.llm, PField.omitted, PField.supplied Option.none,
    PField.omitted, PField.omitted, PField.omitted, PField.omitted⟩

/-- A Tool node whose tool name is supplied as the empty string. -/
def toolEmptyNameIn : NodeConfigIn :=
  ⟨"n", NodeType.tool, PField.omitted, PField.omitted,
    PField.supplied (some ""), PField.omitted, PField.omitted,
    PField.omitted⟩

/-- A plain custom node (constructor input). -/
def plainCustomNodeIn : NodeConfigIn :=
  ⟨"n1", NodeType.custom, PField.omitted, PField.omitted, PField.omitted,
    PField.omitted, PField.omitted, PField.omitted⟩

/-- The validated form of `plainCustomNodeIn`. -/
def plainCustomNode : NodeConfig :=
  ⟨"n1", NodeType.custom, Option.none, Option.none, Option.none,
    Option.none, Option.none, Option.none⟩

/-- A sequential agent whose entry point names an undeclared node. -/
def agentGhostEntryIn : AgentConfigIn :=
  ⟨"a", WorkflowType.sequential, [plainCustomNodeIn], PField.omitted,
    PField.supplied (some "ghost"), 10⟩

/-- A sequential agent supplied with explicit edges. -/
def agentSeqEdgesIn : AgentConfigIn :=
  ⟨"a", WorkflowType.sequential, [plainCustomNodeIn],
    PField.supplied (some [⟨"n1", "n1", Option.none⟩]), PField.omitted, 10⟩

/-- A custom-topology agent with no edges supplied. -/
def agentCustomNoEdgesIn : AgentConfigIn :=
  ⟨"a", WorkflowType.custom, [plainCustomNodeIn], PField.omitted,
    PField.omitted, 10⟩

/-- An LLM node whose prompt field is omitted entirely. -/
def llmPromptOmittedIn : NodeConfigIn :=
  ⟨"n", NodeType.llm, PField.omitted, PField.omitted, PField.omitted,
    PField.omitted, PField.omitted, PField.omitted⟩

/-- Witness for C6: each validation outcome at an explicit
configuration. -/
theorem C6_validation_witness :
    validateNodeConfig llmNoPromptIn =
      Except.error "Prompt is required for LLM nodes" ∧
    validateNodeConfig toolEmptyNameIn =
      Except.error "Tool name is required for tool nodes" ∧
    validateAgentConfig agentGhostEntryIn =
      Except.error ("Entry point " ++ "ghost" ++ " not found in nodes") ∧
    validateAgentConfig agentSeqEdgesIn =
      Except.error "Custom edges are not allowed for sequential workflows" ∧
    validateAgentConfig agentCustomNoEdgesIn =
      Except.ok ⟨"a", WorkflowType.custom, [plainCustomNode], Option.none,
        Option.none, 10⟩ ∧
    validateNodeConfig llmPromptOmittedIn =
      Except.ok ⟨"n", NodeType.llm, Option.none, Option.none, Option.none,
        Option.none, Option.none, Option.none⟩ :=
  ⟨C6_validation.1 llmNoPromptIn Option.none rfl rfl rfl,
   C6_validation.2.1 toolEmptyNameIn (some "") rfl rfl rfl,
   C6_validation.2.2.1 agentGhostEntryIn [plainCustomNode] Option.none
     "ghost" rfl rfl rfl (by decide) (by decide),
   C6_validation.2.2.2.1 agentSeqEdgesIn [plainCustomNode]
     ⟨"n1", "n1", Option.none⟩ [] rfl rfl rfl,
   (C6_validation.2.2.2.2.1 agentCustomNoEdgesIn [plainCustomNode]
     Option.none rfl rfl rfl rfl).1,
   C6_validation.2.2.2.2.2 llmPromptOmittedIn rfl rfl⟩

/-! ## Claim C8: the value returned by `invoke` -/

/-- A node that records itself as the current node (the behaviour every
node builder starts with). -/
def markNode : NodeFun := fun st =>
  NodeRes.dict (dictSet st "current_node" (Val.str "n1"))

/-- Claim C8, counterexample: after a run whose final state carries
`current_node` and `iterations`, the mapping returned by `invoke`
contains neither (nor `input` nor `context`): `_process_result`
projects the final state onto a fixed key set and drops all other
keys. -/
theorem C8_final_state_keys_dropped :
    dictGet
        (mock_invoke [("n1", markNode)]
          (prepare_initial_state (InputData.str "hi"))) "current_node" =
      some (Val.str "n1") ∧
    dictGet (agent_invoke [("n1", markNode)] (InputData.str "hi"))
        "current_node" = Option.none ∧
    dictGet
        (mock_invoke [("n1", markNode)]
          (prepare_initial_state (InputData.str "hi"))) "iterations" =
      some (Val.int 0) ∧
    dictGet (agent_invoke [("n1", markNode)] (InputData.str "hi"))
        "iterations" = Option.none ∧
    dictGet (agent_invoke [("n1", markNode)] (InputData.str "hi")) "input" =
      Option.none ∧
    dictGet (agent_invoke [("n1", markNode)] (InputData.str "hi")) "context" =
      Option.none :=
  ⟨rfl, rfl, rfl, rfl, rfl, rfl⟩

theorem process_result_get_base (result : PyDict) (k : String)
    (hk1 : k ≠ "tools_output") (hk2 : k ≠ "intermediate_steps") :
    dictGet (process_result result) k =
      dictGet [("output", (dictGet result "output").getD Val.none),
        ("messages", (dictGet result "messages").getD (Val.msgList [])),
        ("metadata", (dictGet result "metadata").getD (Val.dict [])),
        ("error", (dictGet result "error").getD Val.none)] k := by
  cases hto : dictGet result "tools_output" with
  | none =>
      cases his : dictGet result "intermediate_steps" with
      | none => simp only [process_result, hto, his]
      | some w =>
          simp only [process_result, hto, his]
          rw [dictGet_set_ne _ _ _ _ (Ne.symm hk2)]
  | some v =>
      cases his : dictGet result "intermediate_steps" with
      | none =>
          simp only [process_result, hto, his]
          rw [dictGet_set_ne _ _ _ _ (Ne.symm hk1)]
      | some w =>
          simp only [process_result, hto, his]
          rw [dictGet_set_ne _ _ _ _ (Ne.symm hk2),
            dictGet_set_ne _ _ _ _ (Ne.symm hk1)]

theorem process_result_get_tools (result : PyDict) (v : Val)
    (h : dictGet result "tools_output" = some v) :
    dictGet (process_result result) "tools_output" = some v := by
  cases his : dictGet result "intermediate_steps" with
  | none =>
      simp only [process_result, h, his]
      rw [dictGet_set_self]
  | some w =>
      simp only [process_result, h, his]
      rw [dictGet_set_ne _ _ _ _ (by decide), dictGet_set_self]

theorem process_result_get_inter (result : PyDict) (v : Val)
    (h : dictGet result "intermediate_steps" = some v) :
    dictGet (process_result result) "intermediate_steps" = some v := by
  cases hto : dictGet result "tools_output" with
  | none =>
      simp only [process_result, hto, h]
      rw [dictGet_set_self]
  | some w =>
      simp only [process_result, hto, h]
      rw [dictGet_set_self]

/-- Claim C8 (amended): `invoke` does not return the final State
itself but a processed projection of it: the returned mapping contains
only the keys `output`, `messages`, `metadata` and `error` (always,
with their final values, defaulted when absent) plus `tools_output` and
`intermediate_steps` exactly with their final values when present in
the final state; keys such as `current_node`, `input`, `context` and
`iterations` are dropped. -/
theorem C8_invoke_returns_projection :
    (∀ (nodes : List (String × NodeFun)) (input_data : InputData),
        agent_invoke nodes input_data =
          process_result
            (mock_invoke nodes (prepare_initial_state input_data))) ∧
    (∀ (result : PyDict) (k : String),
        k ∈ dictKeys (process_result result) →
        k ∈ ["output", "messages", "metadata", "error", "tools_output",
          "intermediate_steps"]) ∧
    (∀ result : PyDict,
        dictGet (process_result result) "output" =
          some ((dictGet result "output").getD Val.none)) ∧
    (∀ result : PyDict,
        dictGet (process_result result) "messages" =
          some ((dictGet result "messages").getD (Val.msgList []))) ∧
    (∀ result : PyDict,
        dictGet (process_result result) "metadata" =
          some ((dictGet result "metadata").getD (Val.dict []))) ∧
    (∀ result : PyDict,
        dictGet (process_result result) "error" =
          some ((dictGet result "error").getD Val.none)) ∧
    (∀ (result : PyDict) (v : Val),
        dictGet result "tools_output" = some v →
        dictGet (process_result result) "tools_output" = some v) ∧
    (∀ (result : PyDict) (v : Val),
        dictGet result "intermediate_steps" = some v →
        dictGet (process_result result) "intermediate_steps" = some v) := by
  have hsub : ∀ x : String,
      x ∈ (["output", "messages", "metadata", "error"] : List String) →
      x ∈ ["output", "messages", "metadata", "error", "tools_output",
        "intermediate_steps"] := by
    intro x hx
    simp only [List.mem_cons, List.not_mem_nil, or_false] at hx ⊢
    tauto
  refine ⟨fun nodes input_data => rfl, ?_, ?_, ?_, ?_, ?_,
    process_result_get_tools, process_result_get_inter⟩
  · intro result k h
    cases hto : dictGet result "tools_output" with
    | none =>
        cases his : dictGet result "intermediate_steps" with
        | none =>
            simp only [process_result, hto, his] at h
            exact hsub k h
        | some w =>
            simp only [process_result, hto, his] at h
            rcases mem_dictKeys_set _ _ _ _ h with rfl | h
            · simp
            · exact hsub k h
    | some v =>
        cases his : dictGet result "intermediate_steps" with
        | none =>
            simp only [process_result, hto, his] at h
            rcases mem_dictKeys_set _ _ _ _ h with rfl | h
            · simp
            · exact hsub k h
        | some w =>
            simp only [process_result, hto, his] at h
            rcases mem_dictKeys_set _ _ _ _ h with rfl | h
            · simp
            · rcases mem_dictKeys_set _ _ _ _ h with rfl | h
              · simp
              · exact hsub k h
  · intro result
    rw [process_result_get_base result "output" (by decide) (by decide)]
    rfl
  · intro result
    rw [process_result_get_base result "messages" (by decide) (by decide)]
    rfl
  · intro result
    rw [process_result_get_base result "metadata" (by decide) (by decide)]
    rfl
  · intro result
    rw [process_result_get_base result "error" (by decide) (by decide)]
    rfl

/-- Witness for C8: the key-set bound and the present-key clauses at an
explicit final state. -/
theorem C8_invoke_returns_projection_witness :
    ("messages" ∈
      dictKeys (process_result
        [("output", Val.str "x"), ("tools_output", Val.dict [])]) →
      "messages" ∈ ["output", "messages", "metadata", "error",
        "tools_output", "intermediate_steps"]) ∧
    ("messages" ∈
      dictKeys (process_result
        [("output", Val.str "x"), ("tools_output", Val.dict [])])) ∧
    dictGet (process_result
        [("output", Val.str "x"), ("tools_output", Val.dict [])])
        "tools_output" = some (Val.dict []) ∧
    dictGet (process_result
        [("output", Val.str "x"), ("tools_output", Val.dict [])])
        "output" =
      some ((dictGet [("output", Val.str "x"),
        ("tools_output", Val.dict [])] "output").getD Val.none) :=
  ⟨C8_invoke_returns_projection.2.1 _ "messages", by decide,
   C8_invoke_returns_projection.2.2.2.2.2.2.1
     [("output", Val.str "x"), ("tools_output", Val.dict [])]
     (Val.dict []) rfl,
   C8_invoke_returns_projection.2.2.1
     [("output", Val.str "x"), ("tools_output", Val.dict [])]⟩

end LGAB
